import Mathlib

/-
Verification development for the decision-robustness simulation pipeline:
a shallow embedding of the world state machine, the stochastic event layer,
the simulation loop, the swarm executor, and the statistical analyzers,
together with theorems settling the specified behavioural properties.
-/

set_option autoImplicit false

namespace DecisionRobustness

/-- Dynamic values stored in state dictionaries (the embedding of Python
values reachable from world state variables and metadata). -/
inductive Val : Type where
  | vnone : Val
  | vbool : Bool → Val
  | vint : Int → Val
  | vrat : ℚ → Val
  | vstr : String → Val
  | vlist : List Val → Val
  | vdict : List (String × Val) → Val

/-- Python dicts with string keys, as insertion-ordered association lists. -/
def Dict : Type := List (String × Val)

instance : Append Dict := ⟨fun a b => List.append a b⟩

instance : EmptyCollection Dict := ⟨([] : List (String × Val))⟩

/-- Lookup of a key (dict subscript / dict.get). -/
def Dict.get : Dict → String → Option Val
  | [], _ => none
  | (k, v) :: rest, key => if k = key then some v else Dict.get rest key

/-- Setting one key: replaces the value in place if the key exists,
appends otherwise (Python dict assignment semantics). -/
def Dict.set : Dict → String → Val → Dict
  | [], key, v => [(key, v)]
  | (k, w) :: rest, key, v =>
      if k = key then (k, v) :: rest else (k, w) :: Dict.set rest key v

/-- dict.update: set every entry of the second dict in order. -/
def Dict.update (d : Dict) (u : Dict) : Dict :=
  u.foldl (fun acc kv => Dict.set acc kv.1 kv.2) d

/-- Keys of a dict, in order. -/
def Dict.keys (d : Dict) : List String := d.map Prod.fst

/-- Immutable snapshot of the world at a point in time
(engine/world.py, class WorldState).  Fields carry their declared Python
types; the `variables` dict is named `vars` here because `variables` is a
reserved word in Lean 4. -/
structure WorldState : Type where
  timestep : Int
  vars : Dict
  is_terminal : Bool := false
  terminal_reason : Option String := none
  metadata : Dict := ∅

/-- The four field names WorldState.evolve treats specially. -/
def specialKeys : List String :=
  ["timestep", "is_terminal", "terminal_reason", "metadata"]

/-- Decode an update value destined for the integer `timestep` field.
Callers of evolve pass well-typed values; on an ill-typed or absent value
the prior field value is kept. -/
def decodeInt (o : Option Val) (dflt : Int) : Int :=
  match o with
  | some (Val.vint t) => t
  | _ => dflt

/-- Decode an update value destined for the boolean `is_terminal` field. -/
def decodeBool (o : Option Val) (dflt : Bool) : Bool :=
  match o with
  | some (Val.vbool b) => b
  | _ => dflt

/-- Decode an update value destined for `terminal_reason`
(Python passes either a string or None). -/
def decodeOptStr (o : Option Val) (dflt : Option String) : Option String :=
  match o with
  | some (Val.vstr s) => some s
  | some Val.vnone => none
  | _ => dflt

/-- Decode an update value destined for the `metadata` dict field. -/
def decodeDict (o : Option Val) (dflt : Dict) : Dict :=
  match o with
  | some (Val.vdict d) => d
  | _ => dflt

/-- WorldState.evolve (engine/world.py lines 50-74): copy the variables
dict, pop the four special keys out of the updates, merge the remaining
updates over the copied variables, and build the new state taking each
special field from the updates when present and from the prior state
otherwise.  The embedding is pure, so the original state is unchanged by
construction (Python relies on the frozen dataclass plus dict copies). -/
def WorldState.evolve (s : WorldState) (updates : Dict) : WorldState :=
  let special_fields : Dict := updates.filter (fun kv => kv.1 ∈ specialKeys)
  let remaining : Dict := updates.filter (fun kv => kv.1 ∉ specialKeys)
  let new_variables : Dict := Dict.update s.vars remaining
  { timestep := decodeInt (special_fields.get "timestep") s.timestep
    vars := new_variables
    is_terminal := decodeBool (special_fields.get "is_terminal") s.is_terminal
    terminal_reason :=
      decodeOptStr (special_fields.get "terminal_reason") s.terminal_reason
    metadata := decodeDict (special_fields.get "metadata") s.metadata }

/-- Action type categories (policies/base.py, class ActionType). -/
inductive ActionType : Type where
  | PROCEED : ActionType
  | DELAY : ActionType
  | AGGRESSIVE : ActionType
  | CONSERVATIVE : ActionType
  | INVEST : ActionType
  | CUT : ActionType
  | PIVOT : ActionType
  deriving DecidableEq, Repr

/-- An action a policy can take (policies/base.py, class Action). -/
structure Action : Type where
  name : String
  action_type : ActionType := ActionType.PROCEED
  description : String := ""
  parameters : Dict := ∅
  cost : ℚ := 0
  risk_level : ℚ := 1/2

/-- Context handed to the policy at each decision point (policies/base.py,
class DecisionContext); the simulator builds it from the current state,
the available actions and the state's timestep. -/
structure DecisionContext : Type where
  state : WorldState
  available_actions : List Action
  timestep : Int

/-- One trajectory entry, the step_record dict built inside Simulator.run.
State snapshots are kept as WorldState values: _state_to_dict is an
injective field-by-field copy, so the dict form carries the same data. -/
structure StepRecord : Type where
  timestep : Int
  state : Option WorldState
  action : Action
  available_actions : List Action
  events : List Val
  state_after : Option WorldState

/-- Complete record of a simulation run (engine/simulator.py,
class SimulationResult); metadata holds only the max_steps entry. -/
structure SimulationResult : Type where
  trajectory : List StepRecord
  initial_state : WorldState
  final_state : WorldState
  total_steps : Nat
  outcome : Option String
  outcome_score : ℚ
  events_occurred : List Val
  seed : Option Int
  max_steps_meta : Nat

/-- SimulationResult.is_failure. -/
def SimulationResult.is_failure (r : SimulationResult) : Bool :=
  r.outcome = some "failure"

/-- SimulationResult.is_success. -/
def SimulationResult.is_success (r : SimulationResult) : Bool :=
  r.outcome = some "success"

/-- SimulationResult.is_timeout. -/
def SimulationResult.is_timeout (r : SimulationResult) : Bool :=
  r.outcome = some "timeout"

/-- A world (engine/world.py, class World), embedded as its capability set
with the mutable internal state — the private numpy generator plus any
generator-owned per-instance state the methods touch — made explicit as a
value of type ω threaded through every method.  `create` embeds
_create_rng: the reconstruction of that internal state from the stored
seed, as World.__init__ and World.reset perform it. -/
structure MWorld (ω : Type) : Type where
  create : Option Int → ω
  initial_state : ω → WorldState × ω
  step : ω → WorldState → Action → WorldState × ω
  get_available_actions : ω → WorldState → List Action × ω
  apply_events : ω → WorldState → WorldState × ω
  check_terminal : ω → WorldState → WorldState × ω
  get_outcome_score : ω → WorldState → ℚ × ω

/-- World.reset (engine/world.py lines 108-112): overwrite the stored seed
when one is given, then rebuild the generator state from the stored seed. -/
def MWorld.reset {ω : Type} (w : MWorld ω) (stored : Option Int)
    (seed : Option Int) : Option Int × ω :=
  let stored' : Option Int :=
    match seed with
    | some s => some s
    | none => stored
  (stored', w.create stored')

/-- A policy with explicit internal state π (policies/base.py, class
Policy): decide observes a context and returns the chosen action, possibly
updating the internal state (decision counters, a private random
generator carried across runs, ...). -/
structure MPolicy (π : Type) : Type where
  decide : π → DecisionContext → Action × π

/-- The events_occurred list of a state's metadata, empty when absent. -/
def eventsList (s : WorldState) : List Val :=
  match s.metadata.get "events_occurred" with
  | some (Val.vlist xs) => xs
  | _ => []

/-- Simulator._get_new_events: the suffix of the after-state's event list
beyond the length of the before-state's. -/
def getNewEvents (before after : WorldState) : List Val :=
  (eventsList after).drop (eventsList before).length

/-- The configuration carried by the main simulation loop: world internal
state, current world state, policy internal state, trajectory so far and
run-wide event list. -/
structure LoopState (ω π : Type) : Type where
  world : ω
  state : WorldState
  policy : π
  trajectory : List StepRecord
  all_events : List Val

/-- The main loop of Simulator.run (engine/simulator.py lines 142-189),
with the remaining iteration budget as explicit fuel.  Per iteration:
stop on a terminal state; query available actions and stop if empty;
ask the policy; apply step, then apply_events, then check_terminal; record
the step and the newly appended events; continue. -/
def runLoop {ω π : Type} (w : MWorld ω) (pol : MPolicy π)
    (recordFull : Bool) :
    Nat → ω → WorldState → π → List StepRecord → List Val → LoopState ω π
  | 0, ws, st, p, traj, evts => ⟨ws, st, p, traj, evts⟩
  | fuel+1, ws, st, p, traj, evts =>
      if st.is_terminal then ⟨ws, st, p, traj, evts⟩
      else
        let aw := w.get_available_actions ws st
        if aw.1.isEmpty then ⟨aw.2, st, p, traj, evts⟩
        else
          let context : DecisionContext := ⟨st, aw.1, st.timestep⟩
          let dp := pol.decide p context
          let s1 := w.step aw.2 st dp.1
          let s2 := w.apply_events s1.2 s1.1
          let events_this_step := getNewEvents s1.1 s2.1
          let s3 := w.check_terminal s2.2 s2.1
          let stepRec : StepRecord :=
            { timestep := st.timestep
              state := if recordFull then some st else none
              action := dp.1
              available_actions := aw.1
              events := events_this_step
              state_after := if recordFull then some s3.1 else none }
          runLoop w pol recordFull fuel s3.2 s3.1 dp.2
            (traj ++ [stepRec]) (evts ++ events_this_step)

/-- The tail of Simulator.run after the loop (lines 191-217): classify the
outcome, force a timeout-terminal state when the loop ended non-terminal,
score the final state, and assemble the SimulationResult. -/
def finishRun {ω π : Type} (w : MWorld ω) (maxSteps : Nat)
    (seed : Option Int) (init : WorldState) (ls : LoopState ω π) :
    SimulationResult × ω × π :=
  let st := ls.state
  let outcome : Option String :=
    if st.is_terminal then st.terminal_reason else some "timeout"
  let final : WorldState :=
    if st.is_terminal then st
    else st.evolve [("is_terminal", Val.vbool true),
                    ("terminal_reason", Val.vstr "timeout")]
  let score := w.get_outcome_score ls.world final
  (⟨ls.trajectory, init, final, ls.trajectory.length, outcome, score.1,
    ls.all_events, seed, maxSteps⟩, score.2, ls.policy)

/-- Simulator.run (engine/simulator.py lines 118-217): reset the world,
take the initial state, run the loop, finish.  Returns the result together
with the world's stored seed / internal state and the policy's internal
state after the run (Python mutates these objects in place, so they carry
over into a subsequent run on the same simulator and policy). -/
def simRun {ω π : Type} (w : MWorld ω) (maxSteps : Nat) (recordFull : Bool)
    (pol : MPolicy π) (stored : Option Int) (p : π) (seed : Option Int) :
    SimulationResult × (Option Int × ω) × π :=
  let r := w.reset stored seed
  let st0 := w.initial_state r.2
  let ls := runLoop w pol recordFull maxSteps st0.2 st0.1 p [] []
  let fr := finishRun w maxSteps seed st0.1 ls
  (fr.1, (r.1, fr.2.1), fr.2.2)

/-- A stochastic event definition (engine/events.py, class Event).
Construction validates probability and severity to lie in [0,1]; the
sampling theorems below take those bounds where needed. -/
structure Event : Type where
  name : String
  description : String := ""
  probability : ℚ
  severity : ℚ := 1/2
  is_irreversible : Bool := false
  cooldown : Nat := 0
  metadata : Dict := ∅

/-- Lookup in the generator-owned cooldown tracker. -/
def getCd : List (String × Int) → String → Option Int
  | [], _ => none
  | (k, v) :: rest, key => if k = key then some v else getCd rest key

/-- Store a cooldown entry, replacing an existing one for the same name. -/
def setCd : List (String × Int) → String → Int → List (String × Int)
  | [], key, v => [(key, v)]
  | (k, w) :: rest, key, v =>
      if k = key then (k, v) :: rest else (k, w) :: setCd rest key v

/-- SimpleEventGenerator (engine/events.py lines 119-210): the event
definitions in insertion order (names are unique dict keys), the optional
per-event probability modifiers and custom handlers, and the mutable
cooldown tracker mapping an event name to the earliest timestep it may
fire again.  Custom handlers are external collaborators; the generator
passes them the state and the event (the rng argument is unused by the
default path modeled here). -/
structure SimpleEventGenerator : Type where
  events : List Event
  probability_modifiers : String → Option (WorldState → ℚ) := fun _ => none
  event_handlers : String → Option (WorldState → Event → WorldState) :=
    fun _ => none
  cooldowns : List (String × Int) := []

/-- SimpleEventGenerator._get_effective_probability: scale the base
probability by the state modifier when one is registered, then clamp the
result to [0,1]. -/
def effectiveProbability (g : SimpleEventGenerator) (e : Event)
    (st : WorldState) : ℚ :=
  let base_prob : ℚ :=
    match g.probability_modifiers e.name with
    | some modifier => e.probability * modifier st
    | none => e.probability
  min 1 (max 0 base_prob)

/-- The cooldown test at the top of the sampling loop: skip the event when
a tracked cooldown lies strictly beyond the current timestep. -/
def inCooldown (cds : List (String × Int)) (e : Event) (ts : Int) : Bool :=
  match getCd cds e.name with
  | some t => decide (ts < t)
  | none => false

/-- The sampling loop of SimpleEventGenerator.sample_events (lines
160-184): walk the event definitions in order; an event in cooldown is
skipped without consuming a draw; otherwise one uniform draw is consumed
and the event fires iff the draw is below its effective probability,
recording a new cooldown when it declares one.  Returns the fired events
in order, the updated cooldown tracker, and the next draw index. -/
def sampleEventsAux (g : SimpleEventGenerator) (st : WorldState)
    (draws : Nat → ℚ) :
    List Event → Nat → List (String × Int) →
      List Event × List (String × Int) × Nat
  | [], i, cds => ([], cds, i)
  | e :: rest, i, cds =>
      if inCooldown cds e st.timestep then
        sampleEventsAux g st draws rest i cds
      else
        let prob := effectiveProbability g e st
        let fired : Bool := decide (draws i < prob)
        let cds' : List (String × Int) :=
          if fired && decide (0 < e.cooldown) then
            setCd cds e.name (st.timestep + e.cooldown)
          else cds
        let out := sampleEventsAux g st draws rest (i + 1) cds'
        if fired then (e :: out.1, out.2) else out

/-- SimpleEventGenerator.sample_events on the generator's own event list
and cooldown tracker, given the generator's uniform draw stream starting
at index i. -/
def sampleEvents (g : SimpleEventGenerator) (st : WorldState)
    (draws : Nat → ℚ) (i : Nat) :
    List Event × List (String × Int) × Nat :=
  sampleEventsAux g st draws g.events i g.cooldowns

/-- SimpleEventGenerator.apply_event (lines 186-206): use the custom
handler when registered; by default append an occurrence record holding
the event name, the current timestep and the severity to
metadata["events_occurred"], leaving other variables untouched. -/
def applyEvent (g : SimpleEventGenerator) (st : WorldState) (e : Event) :
    WorldState :=
  match g.event_handlers e.name with
  | some handler => handler st e
  | none =>
      let record : Val := Val.vdict
        [("name", Val.vstr e.name),
         ("timestep", Val.vint st.timestep),
         ("severity", Val.vrat e.severity)]
      let new_metadata : Dict := st.metadata.set "events_occurred"
        (Val.vlist (eventsList st ++ [record]))
      st.evolve [("metadata", Val.vdict new_metadata)]

/-- Field access on a dynamic dict value (Python e.get(key) on an event
occurrence record). -/
def Val.getKey (v : Val) (k : String) : Option Val :=
  match v with
  | Val.vdict d => Dict.get d k
  | _ => none

/-- Python truthiness of a dynamic value, as used by the any(...) test in
the collapse analyzer. -/
def isTruthy (v : Val) : Bool :=
  match v with
  | Val.vnone => false
  | Val.vbool b => b
  | Val.vint i => decide (i ≠ 0)
  | Val.vrat q => decide (q ≠ 0)
  | Val.vstr s => decide (s ≠ "")
  | Val.vlist xs => !xs.isEmpty
  | Val.vdict d => !d.isEmpty

/-- The collapse analyzer's per-run irreversibility test
(metrics/collapse.py lines 146-147): any event record whose
"is_irreversible" entry (default False) is truthy. -/
def hasIrreversibleEvent (events : List Val) : Bool :=
  events.any (fun e => isTruthy ((e.getKey "is_irreversible").getD (Val.vbool false)))

/-- Sum of a list of rationals (np.sum). -/
def qsum (xs : List ℚ) : ℚ := xs.foldl (fun a b => a + b) 0

/-- np.mean; the analyzers only evaluate it on nonempty lists (division by
zero in ℚ yields 0, matching nothing the claims rely on). -/
def qmean (xs : List ℚ) : ℚ := qsum xs / xs.length

/-- Population variance (np.var / np.std with the default ddof=0). -/
def qvariance (xs : List ℚ) : ℚ :=
  qmean (xs.map (fun x => (x - qmean xs) ^ 2))

/-- np.max on a nonempty list (0 on empty, a case the code guards). -/
def qmax : List ℚ → ℚ
  | [] => 0
  | x :: rest => rest.foldl max x

/-- np.min on a nonempty list (0 on empty, a case the code guards). -/
def qmin : List ℚ → ℚ
  | [] => 0
  | x :: rest => rest.foldl min x

/-- Ordered insertion, keeping duplicates. -/
def insertQ (x : ℚ) : List ℚ → List ℚ
  | [] => [x]
  | y :: ys => if x ≤ y then x :: y :: ys else y :: insertQ x ys

/-- Ascending insertion sort (np.sort as used by np.percentile). -/
def sortQ : List ℚ → List ℚ
  | [] => []
  | x :: xs => insertQ x (sortQ xs)

/-- np.percentile with the default linear interpolation: position
h = p(n-1)/100 into the ascending sort, interpolating between the
neighbouring order statistics. -/
def percentile (xs : List ℚ) (p : ℚ) : ℚ :=
  let a := sortQ xs
  let n := a.length
  if n = 0 then 0
  else
    let h : ℚ := p * (n - 1) / 100
    let lo : Nat := (Int.floor h).toNat
    let frac : ℚ := h - (lo : ℚ)
    let x0 := a.getD lo 0
    let x1 := a.getD (lo + 1) x0
    x0 + frac * (x1 - x0)

/-- A stand-in for np.sqrt adequate at the only argument (0) the concrete
populations used below ever reach; general theorems are parametric in the
square-root function instead. -/
def zeroSqrt : ℚ → ℚ := fun _ => 0

/-- Collapse metrics record (metrics/collapse.py, class CollapseMetrics). -/
structure CollapseMetrics : Type where
  collapse_probability : ℚ
  mean_time_to_collapse : Option ℚ
  std_time_to_collapse : Option ℚ
  collapse_by_horizon : List (Nat × ℚ)
  irreversible_collapse_rate : ℚ
  early_collapse_rate : ℚ
  late_collapse_rate : ℚ
  total_runs : Nat := 0
  collapse_count : Nat := 0
  deriving DecidableEq, Repr

/-- Maximum total_steps across results (Python max over the list). -/
def maxTotalSteps (results : List SimulationResult) : Nat :=
  (results.map (fun r => r.total_steps)).foldl max 0

/-- The CollapseAnalyzer constructor's max_steps resolution:
`max_steps or max(total_steps) if results else 100` — a given nonzero
max_steps wins, a missing or zero one falls back to the observed maximum,
and an empty population gets 100. -/
def collapseMaxSteps (results : List SimulationResult)
    (max_steps : Option Nat) : Nat :=
  if results.isEmpty then 100
  else
    match max_steps with
    | some m => if m = 0 then maxTotalSteps results else m
    | none => maxTotalSteps results

/-- CollapseAnalyzer.compute_metrics (metrics/collapse.py lines 87-172).
Python truncates int(max_steps * c) for c in {0.1, 0.2, 0.25, 0.5, 0.75,
0.8}; for these factors and every max_steps of realistic magnitude (below
2^52) the IEEE product never crosses an integer boundary, so the
truncation equals the rational floor, embedded as Nat division.  np.std of the failure times is the square root of the
population variance, taken through the explicit sqrtFn parameter. -/
def computeMetrics (sqrtFn : ℚ → ℚ) (results : List SimulationResult)
    (max_steps : Option Nat) (horizons : Option (List Nat)) :
    CollapseMetrics :=
  if results.isEmpty then
    { collapse_probability := 0
      mean_time_to_collapse := none
      std_time_to_collapse := none
      collapse_by_horizon := []
      irreversible_collapse_rate := 0
      early_collapse_rate := 0
      late_collapse_rate := 0 }
  else
    let n_total := results.length
    let failures := results.filter (fun r => r.is_failure)
    let n_failures := failures.length
    let collapse_prob : ℚ := (n_failures : ℚ) / (n_total : ℚ)
    let failure_times : List ℚ := failures.map (fun r => (r.total_steps : ℚ))
    let mean_ttc : Option ℚ :=
      if failures.isEmpty then none else some (qmean failure_times)
    let std_ttc : Option ℚ :=
      if failures.isEmpty then none else some (sqrtFn (qvariance failure_times))
    let maxSteps := collapseMaxSteps results max_steps
    let hz : List Nat :=
      match horizons with
      | some h => h
      | none => [maxSteps / 10, maxSteps / 4, maxSteps / 2,
                 3 * maxSteps / 4, maxSteps]
    let collapse_by_horizon : List (Nat × ℚ) := hz.map (fun horizon =>
      (horizon,
       ((failures.filter (fun r => r.total_steps ≤ horizon)).length : ℚ)
         / (n_total : ℚ)))
    let irreversible_count :=
      (failures.filter (fun r => hasIrreversibleEvent r.events_occurred)).length
    let irreversible_rate : ℚ := (irreversible_count : ℚ) / (n_total : ℚ)
    let early_threshold := maxSteps / 5
    let late_threshold := 4 * maxSteps / 5
    let early_collapses :=
      (failures.filter (fun r => r.total_steps ≤ early_threshold)).length
    let late_collapses :=
      (failures.filter (fun r => late_threshold ≤ r.total_steps)).length
    { collapse_probability := collapse_prob
      mean_time_to_collapse := mean_ttc
      std_time_to_collapse := std_ttc
      collapse_by_horizon := collapse_by_horizon
      irreversible_collapse_rate := irreversible_rate
      early_collapse_rate := (early_collapses : ℚ) / (n_total : ℚ)
      late_collapse_rate := (late_collapses : ℚ) / (n_total : ℚ)
      total_runs := n_total
      collapse_count := n_failures }

/-- Kaplan-Meier style survival curve (metrics/survival.py,
class SurvivalCurve). -/
structure SurvivalCurve : Type where
  timesteps : List Nat
  survival_prob : List ℚ
  at_risk : List Nat
  events : List Nat
  confidence_lower : Option (List ℚ) := none
  confidence_upper : Option (List ℚ) := none
  deriving DecidableEq, Repr

/-- The scan inside SurvivalCurve.median_survival: the first time at which
cumulative survival drops to at most one half. -/
def medianAux : List Nat → List ℚ → Option Nat
  | t :: ts, prob :: ps => if prob ≤ 1/2 then some t else medianAux ts ps
  | _, _ => none

/-- SurvivalCurve.median_survival (metrics/survival.py lines 51-56). -/
def SurvivalCurve.median_survival (c : SurvivalCurve) : Option Nat :=
  medianAux c.timesteps c.survival_prob

/-- Ordered insertion skipping duplicates. -/
def insertSortedDedup (x : Nat) : List Nat → List Nat
  | [] => [x]
  | y :: ys =>
      if x < y then x :: y :: ys
      else if x = y then y :: ys
      else y :: insertSortedDedup x ys

/-- sorted(set(xs)): the distinct values in ascending order. -/
def sortedUnique : List Nat → List Nat
  | [] => []
  | x :: xs => insertSortedDedup x (sortedUnique xs)

/-- The Kaplan-Meier fold of compute_survival_curve (lines 134-149) over
the sorted distinct times: at each time the at-risk count, the failure
count, and the updated running survival probability. -/
def kmSteps (data : List (Nat × Bool)) :
    List Nat → ℚ → List (Nat × ℚ × Nat × Nat)
  | [], _ => []
  | t :: ts, s =>
      let n_at_risk := (data.filter (fun d => t ≤ d.1)).length
      let n_events := (data.filter (fun d => d.1 = t && d.2)).length
      let s' : ℚ :=
        if 0 < n_at_risk ∧ 0 < n_events then
          s * (((n_at_risk : ℚ) - (n_events : ℚ)) / (n_at_risk : ℚ))
        else s
      (t, s', n_at_risk, n_events) :: kmSteps data ts s'

/-- Greenwood confidence bounds (lines 151-171), walking the Kaplan-Meier
points while accumulating the variance sum; the square root is taken
through the explicit sqrtFn parameter. -/
def greenwood (sqrtFn : ℚ → ℚ) (z : ℚ) :
    List (Nat × ℚ × Nat × Nat) → ℚ → List (ℚ × ℚ)
  | [], _ => []
  | (_, s, n_i, d_i) :: rest, var_sum =>
      let var_sum' : ℚ :=
        if d_i < n_i ∧ 0 < n_i then
          var_sum + (d_i : ℚ) / ((n_i : ℚ) * ((n_i : ℚ) - (d_i : ℚ)))
        else var_sum
      let se : ℚ := if 0 < var_sum' then s * sqrtFn var_sum' else 0
      (max 0 (s - z * se), min 1 (s + z * se)) :: greenwood sqrtFn z rest var_sum'

/-- SurvivalAnalyzer.compute_survival_curve (metrics/survival.py lines
96-180): empty input yields the empty curve; otherwise pair each run's
total_steps with its failure flag, fold Kaplan-Meier over the sorted
distinct times starting from survival 1, and attach Greenwood bounds with
z = 1.96 for the 95% level and 1.645 otherwise. -/
def computeSurvivalCurve (sqrtFn : ℚ → ℚ)
    (results : List SimulationResult) (confidence_level : ℚ) :
    SurvivalCurve :=
  if results.isEmpty then ⟨[], [], [], [], none, none⟩
  else
    let data : List (Nat × Bool) :=
      results.map (fun r => (r.total_steps, r.is_failure))
    let unique_times := sortedUnique (data.map (fun d => d.1))
    let steps := kmSteps data unique_times 1
    let z : ℚ := if confidence_level = 95/100 then 196/100 else 1645/1000
    let conf := greenwood sqrtFn z steps 0
    { timesteps := steps.map (fun x => x.1)
      survival_prob := steps.map (fun x => x.2.1)
      at_risk := steps.map (fun x => x.2.2.1)
      events := steps.map (fun x => x.2.2.2)
      confidence_lower := some (conf.map (fun x => x.1))
      confidence_upper := some (conf.map (fun x => x.2)) }

/-- Regret distribution record (metrics/regret.py,
class RegretDistribution). -/
structure RegretDistribution : Type where
  regrets : List ℚ
  mean_regret : ℚ
  std_regret : ℚ
  max_regret : ℚ
  median_regret : ℚ
  total_regret : ℚ
  regret_percentiles : List (Nat × ℚ)
  deriving DecidableEq, Repr

/-- RegretDistribution.from_values (metrics/regret.py lines 43-63):
zeros and an empty percentile table on empty input, otherwise the
aggregate statistics with percentiles at 10/25/50/75/90/95/99 (np.median
is the 50th percentile). -/
def fromValues (sqrtFn : ℚ → ℚ) (regrets : List ℚ) : RegretDistribution :=
  if regrets.isEmpty then ⟨[], 0, 0, 0, 0, 0, []⟩
  else
    { regrets := regrets
      mean_regret := qmean regrets
      std_regret := sqrtFn (qvariance regrets)
      max_regret := qmax regrets
      median_regret := percentile regrets 50
      total_regret := qsum regrets
      regret_percentiles :=
        [10, 25, 50, 75, 90, 95, 99].map (fun p => (p, percentile regrets (p : ℚ))) }

/-- RegretAnalyzer.compute_outcome_regret (metrics/regret.py lines
119-136): regret is optimal_score minus each run's outcome score. -/
def compute_outcome_regret (sqrtFn : ℚ → ℚ) (optimal_score : ℚ)
    (results : List SimulationResult) : RegretDistribution :=
  if results.isEmpty then fromValues sqrtFn []
  else fromValues sqrtFn
    (results.map (fun r => optimal_score - r.outcome_score))

/-- SensitivityAnalyzer.compute_noise_sensitivity (metrics/sensitivity.py
lines 81-106): coefficient of variation of the outcome scores — std/mean
when the mean is positive, plain std otherwise; 0 for fewer than two
results. -/
def compute_noise_sensitivity (sqrtFn : ℚ → ℚ)
    (results : List SimulationResult) : ℚ :=
  if results.isEmpty then 0
  else
    let scores := results.map (fun r => r.outcome_score)
    if scores.length < 2 then 0
    else
      let mean := qmean scores
      let std := sqrtFn (qvariance scores)
      if 0 < mean then std / mean else std

/-- Per-group score lists, in insertion order (the groups dict built in
compute_initial_condition_sensitivity). -/
def addToGroups : List (String × List ℚ) → String → ℚ → List (String × List ℚ)
  | [], k, v => [(k, [v])]
  | (g, vs) :: rest, k, v =>
      if g = k then (g, vs ++ [v]) :: rest
      else (g, vs) :: addToGroups rest k v

/-- Group outcome scores by the state grouper applied to each run's
initial state. -/
def groupScores (grouper : WorldState → String)
    (results : List SimulationResult) : List (String × List ℚ) :=
  results.foldl
    (fun acc r => addToGroups acc (grouper r.initial_state) r.outcome_score) []

/-- SensitivityAnalyzer.compute_initial_condition_sensitivity
(metrics/sensitivity.py lines 129-175), parametric in the state grouper
(the Python default groups by the str() rendering of the first variable, a
presentation detail external to the ratio computed here): ratio of
between-group variance of the group means to the mean within-group
variance over groups with at least two members, falling back to the
between-group variance alone when the within-group variance is zero. -/
def compute_initial_condition_sensitivity (grouper : WorldState → String)
    (results : List SimulationResult) : ℚ :=
  if results.isEmpty || decide (results.length < 2) then 0
  else
    let groups := groupScores grouper results
    if groups.length < 2 then 0
    else
      let group_means := groups.map (fun g => qmean g.2)
      let between_var := qvariance group_means
      let within_var :=
        qmean ((groups.filter (fun g => 1 < g.2.length)).map
          (fun g => qvariance g.2))
      if 0 < within_var then between_var / within_var else between_var

/-- SensitivityAnalyzer.compute_brittleness_score (metrics/sensitivity.py
lines 177-216): the weighted composite of capped noise sensitivity,
failure rate, score range, and the fraction of scores at or below the
10th percentile, clamped to [0,1]. -/
def compute_brittleness_score (sqrtFn : ℚ → ℚ)
    (results : List SimulationResult) : ℚ :=
  if results.isEmpty then 0
  else
    let noise_sens := compute_noise_sensitivity sqrtFn results
    let failure_rate : ℚ :=
      ((results.filter (fun r => r.is_failure)).length : ℚ)
        / (results.length : ℚ)
    let scores := results.map (fun r => r.outcome_score)
    let score_range : ℚ := if scores.isEmpty then 0 else qmax scores - qmin scores
    let tail_risk : ℚ :=
      if scores.isEmpty then 0
      else
        let threshold := percentile scores 10
        ((scores.filter (fun s => s ≤ threshold)).length : ℚ)
          / (scores.length : ℚ)
    let brittleness :=
      3/10 * min 1 noise_sens + 3/10 * failure_rate
        + 2/10 * score_range + 2/10 * tail_risk
    min 1 (max 0 brittleness)

/-- Modelled from the spec claim wording for C4: the brittleness formula
with tail_risk as the fraction of scores at or below the 10th percentile
that are ALSO below one half. -/
def brittlenessPerClaim (sqrtFn : ℚ → ℚ)
    (results : List SimulationResult) : ℚ :=
  let scores := results.map (fun r => r.outcome_score)
  let threshold := percentile scores 10
  let tail_risk : ℚ :=
    (scores.countP (fun s => s ≤ threshold && s < 1/2) : ℚ)
      / (scores.length : ℚ)
  let failure_rate : ℚ :=
    (results.countP (fun r => r.is_failure) : ℚ) / (results.length : ℚ)
  min 1 (max 0
    (3/10 * min 1 (compute_noise_sensitivity sqrtFn results)
      + 3/10 * failure_rate
      + 2/10 * (qmax scores - qmin scores)
      + 2/10 * tail_risk))

/-- The amended C4 claim formula: as brittlenessPerClaim but with
tail_risk the plain fraction of scores at or below the 10th percentile. -/
def brittlenessPerAmendedClaim (sqrtFn : ℚ → ℚ)
    (results : List SimulationResult) : ℚ :=
  let scores := results.map (fun r => r.outcome_score)
  let threshold := percentile scores 10
  let tail_risk : ℚ :=
    (scores.countP (fun s => s ≤ threshold) : ℚ) / (scores.length : ℚ)
  let failure_rate : ℚ :=
    (results.countP (fun r => r.is_failure) : ℚ) / (results.length : ℚ)
  min 1 (max 0
    (3/10 * min 1 (compute_noise_sensitivity sqrtFn results)
      + 3/10 * failure_rate
      + 2/10 * (qmax scores - qmin scores)
      + 2/10 * tail_risk))

/-- Per-world error record collected by the executor
(swarm/executor.py, the dict appended on a caught exception). -/
structure WorldError : Type where
  seed : Int
  error : String
  error_type : String

/-- Swarm configuration (swarm/executor.py, class SwarmConfig). -/
structure SwarmConfig : Type where
  n_worlds : Nat := 100
  max_workers : Option Nat := none
  executor_type : String := "thread"
  base_seed : Int := 42
  timeout_seconds : Option ℚ := none
  show_progress : Bool := true

/-- Aggregate result of a swarm run (swarm/executor.py, class
SwarmResult); the constructor wrapper reproduces __post_init__, which
replaces a falsy successful_runs count with the length of the result
list. -/
structure SwarmResult : Type where
  results : List SimulationResult
  config : SwarmConfig
  total_time_seconds : ℚ
  successful_runs : Nat
  failed_runs : Nat
  errors : List WorldError

/-- SwarmResult construction including __post_init__. -/
def mkSwarmResult (results : List SimulationResult) (config : SwarmConfig)
    (total_time : ℚ) (successful failed : Nat) (errors : List WorldError) :
    SwarmResult :=
  { results := results
    config := config
    total_time_seconds := total_time
    successful_runs := if successful = 0 then results.length else successful
    failed_runs := failed
    errors := errors }

/-- The seeds submitted by the executor: base_seed + i for i below
n_worlds. -/
def swarmSeeds (config : SwarmConfig) : List Int :=
  (List.range config.n_worlds).map (fun i => config.base_seed + Int.ofNat i)

/-- One collection step of the executor: a completed world either appends
its result or appends an error record keyed by its seed. -/
def collectWorld (runWorld : Int → Except (String × String) SimulationResult)
    (acc : List SimulationResult × List WorldError) (seed : Int) :
    List SimulationResult × List WorldError :=
  match runWorld seed with
  | Except.ok r => (acc.1 ++ [r], acc.2)
  | Except.error e => (acc.1, acc.2 ++ [⟨seed, e.1, e.2⟩])

/-- SwarmExecutor.run_sequential (swarm/executor.py lines 242-281): run
each seeded world in order, isolating per-world exceptions into error
records; _run_single_world is the oracle runWorld, which raises (error
case) exactly when the policy or world raised.  Wall-clock time is
environment behaviour, recorded as 0. -/
def runSequential (config : SwarmConfig)
    (runWorld : Int → Except (String × String) SimulationResult) :
    SwarmResult :=
  let acc := (swarmSeeds config).foldl (collectWorld runWorld) ([], [])
  mkSwarmResult acc.1 config 0 acc.1.length acc.2.length acc.2

/-- SwarmExecutor.run (swarm/executor.py lines 175-240): futures complete
in a scheduler-chosen order; each completed future contributes exactly one
result or one error record.  The completion order is an arbitrary
permutation of the submitted seeds, passed explicitly. -/
def runParallel (config : SwarmConfig)
    (runWorld : Int → Except (String × String) SimulationResult)
    (completionOrder : List Int) : SwarmResult :=
  let acc := completionOrder.foldl (collectWorld runWorld) ([], [])
  mkSwarmResult acc.1 config 0 acc.1.length acc.2.length acc.2

/-- A fresh world state at timestep 0 with no variables. -/
def wsInit : WorldState := ⟨0, [], false, none, ∅⟩

/-- A run that fails after zero recorded steps. -/
def zeroStepFailure : SimulationResult :=
  ⟨[], wsInit, wsInit, 0, some "failure", 0, [], none, 0⟩

/-- A run that succeeds after one step. -/
def oneStepSuccess : SimulationResult :=
  ⟨[], wsInit, wsInit, 1, some "success", 1, [], none, 10⟩

/-- An irreversible catastrophic event. -/
def irrevEvent : Event :=
  { name := "meltdown", probability := 1, severity := 1,
    is_irreversible := true }

/-- A generator holding only the irreversible event, with no custom
handlers, so apply_event takes the default recording path. -/
def defaultGen : SimpleEventGenerator := { events := [irrevEvent] }

/-- A state at timestep 3 about to receive the irreversible event. -/
def preState : WorldState := ⟨3, [], false, none, ∅⟩

/-- A failing run whose event list is exactly what the default handler
recorded for the irreversible event. -/
def failRunWithIrrev : SimulationResult :=
  ⟨[], preState, preState, 3, some "failure", 0,
   eventsList (applyEvent defaultGen preState irrevEvent), some 1, 10⟩

/-- A successful run scoring 1. -/
def scoreOneA : SimulationResult :=
  ⟨[], wsInit, wsInit, 10, some "success", 1, [], some 1, 10⟩

/-- A second successful run scoring 1 under another seed. -/
def scoreOneB : SimulationResult :=
  ⟨[], wsInit, wsInit, 10, some "success", 1, [], some 2, 10⟩

/-- A failing run at time 5. -/
def failAtFiveA : SimulationResult :=
  ⟨[], wsInit, wsInit, 5, some "failure", 0, [], some 1, 10⟩

/-- A second failing run at time 5. -/
def failAtFiveB : SimulationResult :=
  ⟨[], wsInit, wsInit, 5, some "failure", 0, [], some 2, 10⟩

/-- A constant uniform draw stream. -/
def drawsHalf : Nat → ℚ := fun _ => 1/2

/-- A certain event: probability 1, no modifier. -/
def evAlways : Event := { name := "h", probability := 1 }

/-- An impossible event: probability 0. -/
def evNever : Event := { name := "z", probability := 0 }

/-- A generator holding the certain and the impossible event. -/
def witGen : SimpleEventGenerator := { events := [evAlways, evNever] }

/-- A two-world swarm configuration. -/
def wConfig : SwarmConfig := { n_worlds := 2, base_seed := 42 }

/-- A world runner oracle that raises on seed 43 and succeeds otherwise. -/
def wRunWorld : Int → Except (String × String) SimulationResult :=
  fun s => if s = 43 then Except.error ("boom", "ValueError")
    else Except.ok oneStepSuccess

/-- A two-action menu used to exercise the simulator model. -/
def cexActA : Action := { name := "a" }

/-- Second action of the two-action menu. -/
def cexActB : Action := { name := "b" }

/-- A minimal deterministic world: a fresh generator state is rebuilt from
the seed, two actions are always available, transitions leave the state
unchanged, and no terminal condition ever fires. -/
def cexWorld : MWorld Unit :=
  { create := fun _ => ()
    initial_state := fun u => (⟨0, [], false, none, ∅⟩, u)
    step := fun u st _ => (st, u)
    get_available_actions := fun u _ => ([cexActA, cexActB], u)
    apply_events := fun u st => (st, u)
    check_terminal := fun u st => (st, u)
    get_outcome_score := fun u _ => (1/2, u) }

/-- A policy of RandomPolicy's shape: it owns an internal generator state
(here a counter) consumed by every decision and never reset between runs,
exactly as RandomPolicy.reset deliberately keeps its numpy generator. -/
def counterPolicy : MPolicy Nat :=
  { decide := fun n _ctx =>
      (if n % 2 = 0 then cexActA else cexActB, n + 1) }

/-- A stateless policy: always the first available action, internal state
untouched. -/
def firstActionPolicy : MPolicy Unit :=
  { decide := fun u ctx => (ctx.available_actions.headD cexActA, u) }

/-- A world whose action menu is always empty, exercising the
empty-actions exit of the simulation loop. -/
def stuckWorld : MWorld Unit :=
  { create := fun _ => ()
    initial_state := fun u => (⟨0, [], false, none, ∅⟩, u)
    step := fun u st _ => (st, u)
    get_available_actions := fun u _ => ([], u)
    apply_events := fun u st => (st, u)
    check_terminal := fun u st => (st, u)
    get_outcome_score := fun u _ => (1/2, u) }

theorem Dict.get_set_self (d : Dict) (k : String) (v : Val) :
    (d.set k v).get k = some v := by
  induction d with
  | nil => simp [Dict.set, Dict.get]
  | cons kv rest ih =>
      by_cases h : kv.1 = k
      · simp [Dict.set, Dict.get, h]
      · simp [Dict.set, Dict.get, h, ih]

theorem Dict.get_set_ne (d : Dict) (k k' : String) (v : Val) (h : k ≠ k') :
    (d.set k v).get k' = d.get k' := by
  induction d with
  | nil => simp [Dict.set, Dict.get, h]
  | cons kv rest ih =>
      by_cases hk : kv.1 = k
      · simp [Dict.set, Dict.get, hk, h]
      · simp only [Dict.set, if_neg hk, Dict.get]
        by_cases hk' : kv.1 = k'
        · simp [hk']
        · simp [hk', ih]

theorem Dict.get_eq_none_of_not_mem (d : Dict) (k : String) (h : k ∉ d.keys) :
    d.get k = none := by
  induction d with
  | nil => rfl
  | cons kv rest ih =>
      have h1 : kv.1 ≠ k := by
        intro hc
        exact h (by simp [Dict.keys, hc])
      have h2 : k ∉ Dict.keys rest := by
        intro hc
        exact h (by simp [Dict.keys]; right; simpa [Dict.keys] using hc)
      simp [Dict.get, h1, ih h2]

theorem Dict.get_update (d u : Dict) (k : String) (hnd : u.keys.Nodup) :
    (d.update u).get k = (u.get k).orElse (fun _ => d.get k) := by
  induction u generalizing d with
  | nil => simp [Dict.update, Dict.get, Option.orElse]
  | cons kv rest ih =>
      have hnd2 : (kv.1 :: List.map Prod.fst rest).Nodup := by
        simpa only [Dict.keys, List.map_cons] using hnd
      have hcons := List.nodup_cons.mp hnd2
      have hnd' : Dict.keys rest |>.Nodup := by
        simpa [Dict.keys] using hcons.2
      have hmem : kv.1 ∉ Dict.keys rest := by
        simpa [Dict.keys] using hcons.1
      have hupdate : Dict.update d (kv :: rest) = Dict.update (d.set kv.1 kv.2) rest := by
        simp [Dict.update, List.foldl_cons]
      rw [hupdate, ih _ hnd']
      by_cases hk : kv.1 = k
      · subst hk
        rw [Dict.get_eq_none_of_not_mem rest kv.1 hmem]
        simp [Dict.get, Dict.get_set_self, Option.orElse]
      · rw [Dict.get_set_ne _ _ _ _ hk]
        simp [Dict.get, hk, Option.orElse]

theorem Dict.get_filter (d : Dict) (p : String → Bool) (k : String) :
    Dict.get (List.filter (fun kv => p kv.1) d) k
      = if p k then d.get k else none := by
  induction d with
  | nil => simp [Dict.get]
  | cons kv rest ih =>
      by_cases hpk : p kv.1
      · have hstep : List.filter (fun kv => p kv.1) (kv :: rest)
            = kv :: List.filter (fun kv => p kv.1) rest := by
          simp [List.filter_cons, hpk]
        rw [hstep]
        by_cases hk : kv.1 = k
        · subst hk
          simp [Dict.get, hpk]
        · simp only [Dict.get, if_neg hk]
          exact ih
      · have hstep : List.filter (fun kv => p kv.1) (kv :: rest)
            = List.filter (fun kv => p kv.1) rest := by
          simp [List.filter_cons, hpk]
        rw [hstep, ih]
        by_cases hk : kv.1 = k
        · subst hk
          simp only [Bool.not_eq_true] at hpk
          simp [Dict.get, hpk]
        · simp [Dict.get, hk]

theorem Dict.keys_filter_nodup (d : Dict) (p : String × Val → Bool)
    (hnd : d.keys.Nodup) : (Dict.keys (List.filter p d)).Nodup := by
  have hsub : List.Sublist (List.filter p d) d := List.filter_sublist d
  exact List.Nodup.sublist (List.Sublist.map Prod.fst hsub) hnd

/-- C2: for every state s and update dict u (with the distinct keys every
Python kwargs dict has, and well-typed values for the special fields),
s.evolve(u) returns a state whose variables are exactly u's non-special
entries merged over s's prior variables, and whose four special fields
(timestep, is_terminal, terminal_reason, metadata) take the value given in
u when present and s's prior value otherwise.  The embedding is pure, so s
itself is unchanged by construction. -/
theorem evolve_merges_exactly (s : WorldState) (u : Dict)
    (hnd : (Dict.keys u).Nodup) :
    (∀ k : String, (s.evolve u).vars.get k
        = (Dict.get (List.filter (fun kv => kv.1 ∉ specialKeys) u) k).orElse
            (fun _ => s.vars.get k))
    ∧ (∀ t : Int, u.get "timestep" = some (Val.vint t) →
        (s.evolve u).timestep = t)
    ∧ (u.get "timestep" = none → (s.evolve u).timestep = s.timestep)
    ∧ (∀ b : Bool, u.get "is_terminal" = some (Val.vbool b) →
        (s.evolve u).is_terminal = b)
    ∧ (u.get "is_terminal" = none → (s.evolve u).is_terminal = s.is_terminal)
    ∧ (∀ r : String, u.get "terminal_reason" = some (Val.vstr r) →
        (s.evolve u).terminal_reason = some r)
    ∧ (u.get "terminal_reason" = some Val.vnone →
        (s.evolve u).terminal_reason = none)
    ∧ (u.get "terminal_reason" = none →
        (s.evolve u).terminal_reason = s.terminal_reason)
    ∧ (∀ m : Dict, u.get "metadata" = some (Val.vdict m) →
        (s.evolve u).metadata = m)
    ∧ (u.get "metadata" = none → (s.evolve u).metadata = s.metadata) := by
  have hget : ∀ key : String, key ∈ specialKeys →
      Dict.get (List.filter (fun kv => kv.1 ∈ specialKeys) u) key
        = u.get key := by
    intro key hkey
    have h := Dict.get_filter u (fun key => decide (key ∈ specialKeys)) key
    simpa [hkey] using h
  have hts : "timestep" ∈ specialKeys := by simp [specialKeys]
  have hit : "is_terminal" ∈ specialKeys := by simp [specialKeys]
  have htr : "terminal_reason" ∈ specialKeys := by simp [specialKeys]
  have hmd : "metadata" ∈ specialKeys := by simp [specialKeys]
  refine ⟨?_, ?_, ?_, ?_, ?_, ?_, ?_, ?_, ?_, ?_⟩
  · intro k
    show Dict.get
        (Dict.update s.vars (List.filter (fun kv => kv.1 ∉ specialKeys) u)) k
        = _
    exact Dict.get_update _ _ _ (Dict.keys_filter_nodup u _ hnd)
  · intro t ht
    show decodeInt
        (Dict.get (List.filter (fun kv => kv.1 ∈ specialKeys) u) "timestep")
        s.timestep = t
    rw [hget _ hts, ht]
    rfl
  · intro ht
    show decodeInt
        (Dict.get (List.filter (fun kv => kv.1 ∈ specialKeys) u) "timestep")
        s.timestep = s.timestep
    rw [hget _ hts, ht]
    rfl
  · intro b hb
    show decodeBool
        (Dict.get (List.filter (fun kv => kv.1 ∈ specialKeys) u) "is_terminal")
        s.is_terminal = b
    rw [hget _ hit, hb]
    rfl
  · intro hb
    show decodeBool
        (Dict.get (List.filter (fun kv => kv.1 ∈ specialKeys) u) "is_terminal")
        s.is_terminal = s.is_terminal
    rw [hget _ hit, hb]
    rfl
  · intro r hr
    show decodeOptStr
        (Dict.get (List.filter (fun kv => kv.1 ∈ specialKeys) u)
          "terminal_reason") s.terminal_reason = some r
    rw [hget _ htr, hr]
    rfl
  · intro hr
    show decodeOptStr
        (Dict.get (List.filter (fun kv => kv.1 ∈ specialKeys) u)
          "terminal_reason") s.terminal_reason = none
    rw [hget _ htr, hr]
    rfl
  · intro hr
    show decodeOptStr
        (Dict.get (List.filter (fun kv => kv.1 ∈ specialKeys) u)
          "terminal_reason") s.terminal_reason = s.terminal_reason
    rw [hget _ htr, hr]
    rfl
  · intro m hm
    show decodeDict
        (Dict.get (List.filter (fun kv => kv.1 ∈ specialKeys) u) "metadata")
        s.metadata = m
    rw [hget _ hmd, hm]
    rfl
  · intro hm
    show decodeDict
        (Dict.get (List.filter (fun kv => kv.1 ∈ specialKeys) u) "metadata")
        s.metadata = s.metadata
    rw [hget _ hmd, hm]
    rfl

/-- Witness for evolve_merges_exactly at a concrete state and update set. -/
theorem evolve_merges_exactly_witness :
    (Dict.keys [("budget", Val.vint 7), ("is_terminal", Val.vbool true)]).Nodup
    ∧ ((WorldState.mk 3 [("budget", Val.vint 2), ("morale", Val.vint 9)]
          false none ∅).evolve
        [("budget", Val.vint 7), ("is_terminal", Val.vbool true)]).is_terminal
        = true := by
  refine ⟨by simp [Dict.keys], ?_⟩
  exact (evolve_merges_exactly
      (WorldState.mk 3 [("budget", Val.vint 2), ("morale", Val.vint 9)]
        false none ∅)
      [("budget", Val.vint 7), ("is_terminal", Val.vbool true)]
      (by simp [Dict.keys])).2.2.2.1 true rfl

theorem runLoop_policy_state_free {ω π : Type} (w : MWorld ω)
    (pol : MPolicy π) (rf : Bool)
    (hdec : ∀ (p q : π) (ctx : DecisionContext),
      (pol.decide p ctx).1 = (pol.decide q ctx).1) :
    ∀ (fuel : Nat) (ws : ω) (st : WorldState) (p q : π)
      (traj : List StepRecord) (evts : List Val),
      (runLoop w pol rf fuel ws st p traj evts).world
          = (runLoop w pol rf fuel ws st q traj evts).world
      ∧ (runLoop w pol rf fuel ws st p traj evts).state
          = (runLoop w pol rf fuel ws st q traj evts).state
      ∧ (runLoop w pol rf fuel ws st p traj evts).trajectory
          = (runLoop w pol rf fuel ws st q traj evts).trajectory
      ∧ (runLoop w pol rf fuel ws st p traj evts).all_events
          = (runLoop w pol rf fuel ws st q traj evts).all_events := by
  intro fuel
  induction fuel with
  | zero =>
      intro ws st p q traj evts
      exact ⟨rfl, rfl, rfl, rfl⟩
  | succ n ih =>
      intro ws st p q traj evts
      by_cases hterm : st.is_terminal = true
      · simp [runLoop, hterm]
      · by_cases hempty : (w.get_available_actions ws st).1.isEmpty = true
        · simp [runLoop, hterm, hempty]
        · have hact := hdec p q ⟨st, (w.get_available_actions ws st).1, st.timestep⟩
          simp only [runLoop, hterm, hempty, if_false, Bool.false_eq_true,
            if_neg, hact]
          exact ih _ _ _ _ _ _

theorem finishRun_fst_congr {ω π : Type} (w : MWorld ω) (ms : Nat)
    (seed : Option Int) (init : WorldState) (ls1 ls2 : LoopState ω π)
    (h1 : ls1.world = ls2.world) (h2 : ls1.state = ls2.state)
    (h3 : ls1.trajectory = ls2.trajectory)
    (h4 : ls1.all_events = ls2.all_events) :
    (finishRun w ms seed init ls1).1 = (finishRun w ms seed init ls2).1 := by
  simp only [finishRun, h1, h2, h3, h4]

/-- C1 counterexample: the two-run determinism claim, quantified over all
policies including ones keeping internal generator state across runs, is
false.  With a world that is fully rebuilt by reset and a policy of
RandomPolicy's shape (an internal generator consumed per decision and
never reset — Simulator.run never calls policy.reset, and
RandomPolicy.reset keeps its generator on purpose), the second invocation
of Simulator.run picks a different action than the first. -/
theorem two_run_determinism_counterexample :
    (simRun cexWorld 1 false counterPolicy none 0 (some 7)).1
      ≠ (simRun cexWorld 1 false counterPolicy
          (simRun cexWorld 1 false counterPolicy none 0 (some 7)).2.1.1
          (simRun cexWorld 1 false counterPolicy none 0 (some 7)).2.2
          (some 7)).1 := by
  intro h
  have hnames := congrArg
    (fun r : SimulationResult => r.trajectory.map (fun sr => sr.action.name)) h
  have hne : (simRun cexWorld 1 false counterPolicy none 0 (some 7)).1.trajectory.map
        (fun sr => sr.action.name)
      ≠ (simRun cexWorld 1 false counterPolicy
          (simRun cexWorld 1 false counterPolicy none 0 (some 7)).2.1.1
          (simRun cexWorld 1 false counterPolicy none 0 (some 7)).2.2
          (some 7)).1.trajectory.map (fun sr => sr.action.name) := by
    decide
  exact hne hnames

/-- C1 (amended): for every world whose reset rebuilds its internal state
from the seed — as the World base class does — and every policy whose
chosen action does not depend on mutable policy-internal state, two
consecutive Simulator.run invocations with the same seed argument produce
the same SimulationResult: identical trajectory, outcome and
outcome_score.  (The unamended claim over all stateful policies is refuted
by two_run_determinism_counterexample.) -/
theorem two_run_determinism_of_state_free_policy {ω π : Type}
    (w : MWorld ω) (pol : MPolicy π) (ms : Nat) (rf : Bool)
    (stored : Option Int) (p : π) (seed : Option Int)
    (hdec : ∀ (p q : π) (ctx : DecisionContext),
      (pol.decide p ctx).1 = (pol.decide q ctx).1) :
    (simRun w ms rf pol
        (simRun w ms rf pol stored p seed).2.1.1
        (simRun w ms rf pol stored p seed).2.2 seed).1
      = (simRun w ms rf pol stored p seed).1 := by
  have hreset : MWorld.reset w (MWorld.reset w stored seed).1 seed
      = MWorld.reset w stored seed := by
    cases seed <;> rfl
  have hloop := runLoop_policy_state_free w pol rf hdec ms
    (w.initial_state (MWorld.reset w stored seed).2).2
    (w.initial_state (MWorld.reset w stored seed).2).1
    (simRun w ms rf pol stored p seed).2.2 p [] []
  show (finishRun w ms seed _ _).1 = (finishRun w ms seed _ _).1
  simp only [simRun, hreset]
  exact finishRun_fst_congr w ms seed _ _ _ hloop.1 hloop.2.1 hloop.2.2.1
    hloop.2.2.2

/-- Witness for the amended C1 determinism theorem at a concrete world,
stateless policy and seed. -/
theorem two_run_determinism_witness :
    (∀ (p q : Unit) (ctx : DecisionContext),
        (firstActionPolicy.decide p ctx).1 = (firstActionPolicy.decide q ctx).1)
    ∧ (simRun cexWorld 3 true firstActionPolicy
        (simRun cexWorld 3 true firstActionPolicy none () (some 3)).2.1.1
        (simRun cexWorld 3 true firstActionPolicy none () (some 3)).2.2
        (some 3)).1
      = (simRun cexWorld 3 true firstActionPolicy none () (some 3)).1 :=
  ⟨fun _ _ _ => rfl,
   two_run_determinism_of_state_free_policy cexWorld firstActionPolicy 3 true
     none () (some 3) (fun _ _ _ => rfl)⟩

/-- C7: if the world returns an empty action menu at a non-terminal state
while iterations remain, the simulation loop stops immediately without
recording a step for that iteration, and the finished result has
total_steps equal to the number of steps recorded before and outcome
classified "timeout" because no explicit terminal reason was set.  The
first part quantifies over every loop configuration, covering every
iteration of Simulator.run; the second part instantiates Simulator.run
itself when the initial state already has no actions. -/
theorem run_stops_on_empty_actions {ω π : Type} (w : MWorld ω)
    (pol : MPolicy π) (rf : Bool) :
    (∀ (fuel : Nat) (ws : ω) (st : WorldState) (p : π)
        (traj : List StepRecord) (evts : List Val),
      st.is_terminal = false →
      (w.get_available_actions ws st).1 = [] →
      0 < fuel →
      runLoop w pol rf fuel ws st p traj evts
        = ⟨(w.get_available_actions ws st).2, st, p, traj, evts⟩
      ∧ ∀ (ms : Nat) (seed : Option Int) (init : WorldState),
          (finishRun w ms seed init
              (runLoop w pol rf fuel ws st p traj evts)).1.outcome
            = some "timeout"
          ∧ (finishRun w ms seed init
              (runLoop w pol rf fuel ws st p traj evts)).1.total_steps
            = traj.length)
    ∧ ∀ (ms : Nat) (stored : Option Int) (p : π) (seed : Option Int),
        0 < ms →
        (w.initial_state (w.reset stored seed).2).1.is_terminal = false →
        (w.get_available_actions (w.initial_state (w.reset stored seed).2).2
          (w.initial_state (w.reset stored seed).2).1).1 = [] →
        (simRun w ms rf pol stored p seed).1.outcome = some "timeout"
        ∧ (simRun w ms rf pol stored p seed).1.total_steps = 0 := by
  have hpart1 : ∀ (fuel : Nat) (ws : ω) (st : WorldState) (p : π)
      (traj : List StepRecord) (evts : List Val),
      st.is_terminal = false →
      (w.get_available_actions ws st).1 = [] →
      0 < fuel →
      runLoop w pol rf fuel ws st p traj evts
        = ⟨(w.get_available_actions ws st).2, st, p, traj, evts⟩
      ∧ ∀ (ms : Nat) (seed : Option Int) (init : WorldState),
          (finishRun w ms seed init
              (runLoop w pol rf fuel ws st p traj evts)).1.outcome
            = some "timeout"
          ∧ (finishRun w ms seed init
              (runLoop w pol rf fuel ws st p traj evts)).1.total_steps
            = traj.length := by
    intro fuel ws st p traj evts hterm hempty hfuel
    obtain ⟨n, rfl⟩ : ∃ n, fuel = n + 1 := by
      cases fuel with
      | zero => exact absurd hfuel (by omega)
      | succ m => exact ⟨m, rfl⟩
    have hloop : runLoop w pol rf (n + 1) ws st p traj evts
        = ⟨(w.get_available_actions ws st).2, st, p, traj, evts⟩ := by
      simp [runLoop, hterm, hempty]
    refine ⟨hloop, ?_⟩
    intro ms seed init
    rw [hloop]
    constructor
    · simp [finishRun, hterm]
    · rfl
  refine ⟨hpart1, ?_⟩
  intro ms stored p seed hms hterm hempty
  have h := hpart1 ms (w.initial_state (w.reset stored seed).2).2
    (w.initial_state (w.reset stored seed).2).1 p [] [] hterm hempty hms
  exact (h.2 ms seed (w.initial_state (w.reset stored seed).2).1)

/-- Witness for the empty-actions stop theorem at a concrete stuck world:
Simulator.run on it times out with zero recorded steps. -/
theorem run_stops_on_empty_actions_witness :
    (0 < 5
      ∧ (stuckWorld.initial_state
          (stuckWorld.reset none (some 1)).2).1.is_terminal = false
      ∧ (stuckWorld.get_available_actions
          (stuckWorld.initial_state (stuckWorld.reset none (some 1)).2).2
          (stuckWorld.initial_state (stuckWorld.reset none (some 1)).2).1).1
        = [])
    ∧ (simRun stuckWorld 5 true firstActionPolicy none () (some 1)).1.outcome
        = some "timeout"
    ∧ (simRun stuckWorld 5 true firstActionPolicy none ()
        (some 1)).1.total_steps = 0 :=
  ⟨⟨by omega, rfl, rfl⟩,
   (run_stops_on_empty_actions stuckWorld firstActionPolicy true).2
     5 none () (some 1) (by omega) rfl rfl⟩

theorem getCd_setCd_ne (cds : List (String × Int)) (n m : String) (v : Int)
    (h : n ≠ m) : getCd (setCd cds n v) m = getCd cds m := by
  induction cds with
  | nil => simp [setCd, getCd, h]
  | cons kv rest ih =>
      by_cases hk : kv.1 = n
      · simp only [setCd, if_pos hk, getCd]
        rw [hk]
        simp [h]
      · simp only [setCd, if_neg hk, getCd]
        by_cases hk' : kv.1 = m
        · simp [hk']
        · simp [hk', ih]

theorem inCooldown_congr (cds1 cds2 : List (String × Int)) (e : Event)
    (ts : Int) (h : getCd cds1 e.name = getCd cds2 e.name) :
    inCooldown cds1 e ts = inCooldown cds2 e ts := by
  unfold inCooldown
  rw [h]

theorem sampleEventsAux_subset (g : SimpleEventGenerator) (st : WorldState)
    (draws : Nat → ℚ) :
    ∀ (events : List Event) (i : Nat) (cds : List (String × Int)) (x : Event),
      x ∈ (sampleEventsAux g st draws events i cds).1 → x ∈ events := by
  intro events
  induction events with
  | nil =>
      intro i cds x hx
      simp [sampleEventsAux] at hx
  | cons e rest ih =>
      intro i cds x hx
      by_cases hcd : inCooldown cds e st.timestep = true
      · rw [sampleEventsAux, if_pos hcd] at hx
        exact List.mem_cons_of_mem e (ih i cds x hx)
      · rw [sampleEventsAux, if_neg hcd] at hx
        by_cases hfire : decide (draws i < effectiveProbability g e st) = true
        · simp only [hfire, if_true] at hx
          rcases List.mem_cons.mp hx with h | h
          · exact h ▸ List.mem_cons_self e rest
          · exact List.mem_cons_of_mem e (ih _ _ x h)
        · simp only [hfire, if_false, Bool.false_eq_true] at hx
          exact List.mem_cons_of_mem e (ih _ _ x hx)

theorem effectiveProbability_of_zero (g : SimpleEventGenerator) (e : Event)
    (st : WorldState) (h : e.probability = 0) :
    effectiveProbability g e st = 0 := by
  unfold effectiveProbability
  cases hm : g.probability_modifiers e.name <;> simp [h]

theorem effectiveProbability_of_one (g : SimpleEventGenerator) (e : Event)
    (st : WorldState) (h : e.probability = 1)
    (hm : g.probability_modifiers e.name = none) :
    effectiveProbability g e st = 1 := by
  unfold effectiveProbability
  rw [hm]
  simp [h]

theorem sampleEventsAux_zero_never (g : SimpleEventGenerator)
    (st : WorldState) (draws : Nat → ℚ) (hnn : ∀ j, 0 ≤ draws j) :
    ∀ (events : List Event) (i : Nat) (cds : List (String × Int)) (e : Event),
      e.probability = 0 → e ∉ (sampleEventsAux g st draws events i cds).1 := by
  intro events
  induction events with
  | nil =>
      intro i cds e hz
      simp [sampleEventsAux]
  | cons ev rest ih =>
      intro i cds e hz hx
      by_cases hcd : inCooldown cds ev st.timestep = true
      · rw [sampleEventsAux, if_pos hcd] at hx
        exact ih i cds e hz hx
      · rw [sampleEventsAux, if_neg hcd] at hx
        by_cases hfire : decide (draws i < effectiveProbability g ev st) = true
        · simp only [hfire, if_true] at hx
          rcases List.mem_cons.mp hx with h | h
          · subst h
            have heff := effectiveProbability_of_zero g e st hz
            have := of_decide_eq_true hfire
            rw [heff] at this
            exact absurd this (not_lt.mpr (hnn i))
          · exact ih _ _ e hz h
        · simp only [hfire, if_false, Bool.false_eq_true] at hx
          exact ih _ _ e hz hx

theorem sampleEventsAux_one_fires (g : SimpleEventGenerator)
    (st : WorldState) (draws : Nat → ℚ) (hlt : ∀ j, draws j < 1) :
    ∀ (events : List Event) (i : Nat) (cds : List (String × Int)) (e : Event),
      (events.map Event.name).Nodup → e ∈ events → e.probability = 1 →
      g.probability_modifiers e.name = none →
      inCooldown cds e st.timestep = false →
      e ∈ (sampleEventsAux g st draws events i cds).1 := by
  intro events
  induction events with
  | nil =>
      intro i cds e hnd hmem
      exact absurd hmem (List.not_mem_nil e)
  | cons ev rest ih =>
      intro i cds e hnd hmem hone hmod hcd
      have hnd2 : (ev.name :: List.map Event.name rest).Nodup := by
        simpa only [List.map_cons] using hnd
      have hndcons := List.nodup_cons.mp hnd2
      rcases List.mem_cons.mp hmem with heq | hrest
      · subst heq
        rw [sampleEventsAux, if_neg (by simp [hcd])]
        have heff := effectiveProbability_of_one g e st hone hmod
        have hfire : decide (draws i < effectiveProbability g e st) = true := by
          rw [heff]
          exact decide_eq_true (hlt i)
        simp only [hfire, if_true]
        exact List.mem_cons_self _ _
      · have hne : ev.name ≠ e.name := by
          intro hc
          exact hndcons.1 (hc ▸ List.mem_map_of_mem Event.name hrest)
        by_cases hcdev : inCooldown cds ev st.timestep = true
        · rw [sampleEventsAux, if_pos hcdev]
          exact ih i cds e hndcons.2 hrest hone hmod hcd
        · rw [sampleEventsAux, if_neg hcdev]
          by_cases hfire : decide (draws i < effectiveProbability g ev st) = true
          · simp only [hfire, if_true]
            by_cases hcdpos : decide (0 < ev.cooldown) = true
            · have hpres : getCd (setCd cds ev.name (st.timestep + ev.cooldown))
                  e.name = getCd cds e.name := getCd_setCd_ne cds _ _ _ hne
              have hcd' : inCooldown
                  (setCd cds ev.name (st.timestep + ev.cooldown)) e st.timestep
                  = false := by
                rw [inCooldown_congr _ cds e st.timestep hpres]
                exact hcd
              refine List.mem_cons_of_mem ev ?_
              simpa [hfire, hcdpos] using
                ih (i + 1) _ e hndcons.2 hrest hone hmod hcd'
            · refine List.mem_cons_of_mem ev ?_
              simpa [hfire, hcdpos] using
                ih (i + 1) cds e hndcons.2 hrest hone hmod hcd
          · simp only [hfire, if_false, Bool.false_eq_true]
            simpa [hfire] using
              ih (i + 1) cds e hndcons.2 hrest hone hmod hcd

/-- C8: in independent event sampling, a (non-cooldown) event fires iff
its uniform draw is below the effective probability
min(1, max(0, base_probability times modifier(state))); consequently an
event with probability 0 never fires for any state and any modifier, and
an event with probability 1 and no modifier always fires unless it is in
cooldown.  Draw values are the outputs of rng.random(), hence in [0,1). -/
theorem sample_events_probability_law (g : SimpleEventGenerator)
    (st : WorldState) (draws : Nat → ℚ) (i : Nat)
    (hnn : ∀ j, 0 ≤ draws j) (hlt : ∀ j, draws j < 1)
    (hnames : (g.events.map Event.name).Nodup) :
    (∀ (e : Event) (rest : List Event), g.events = e :: rest →
        inCooldown g.cooldowns e st.timestep = false →
        (e ∈ (sampleEvents g st draws i).1
          ↔ draws i < effectiveProbability g e st))
    ∧ (∀ e : Event, e.probability = 0 → e ∉ (sampleEvents g st draws i).1)
    ∧ (∀ e : Event, e ∈ g.events → e.probability = 1 →
        g.probability_modifiers e.name = none →
        inCooldown g.cooldowns e st.timestep = false →
        e ∈ (sampleEvents g st draws i).1) := by
  refine ⟨?_, ?_, ?_⟩
  · intro e rest hev hcd
    constructor
    · intro hmem
      by_contra hge
      have hfire : decide (draws i < effectiveProbability g e st) = false :=
        decide_eq_false hge
      unfold sampleEvents at hmem
      rw [hev] at hmem
      rw [sampleEventsAux, if_neg (by simp [hcd])] at hmem
      simp only [hfire, if_false, Bool.false_eq_true] at hmem
      have hsub := sampleEventsAux_subset g st draws rest (i + 1) _ e hmem
      have hnd2 : (e.name :: List.map Event.name rest).Nodup := by
        have h3 : ((e :: rest).map Event.name).Nodup := hev ▸ hnames
        simpa only [List.map_cons] using h3
      have hndcons := List.nodup_cons.mp hnd2
      exact hndcons.1 (List.mem_map_of_mem Event.name hsub)
    · intro hdlt
      unfold sampleEvents
      rw [hev]
      rw [sampleEventsAux, if_neg (by simp [hcd])]
      have hfire : decide (draws i < effectiveProbability g e st) = true :=
        decide_eq_true hdlt
      simp only [hfire, if_true]
      exact List.mem_cons_self _ _
  · intro e hz
    exact sampleEventsAux_zero_never g st draws hnn g.events i g.cooldowns e hz
  · intro e hmem hone hmod hcd
    exact sampleEventsAux_one_fires g st draws hlt g.events i g.cooldowns e
      hnames hmem hone hmod hcd

theorem collectWorld_counts
    (runWorld : Int → Except (String × String) SimulationResult)
    (acc : List SimulationResult × List WorldError) (seed : Int) :
    (collectWorld runWorld acc seed).1.length
        + (collectWorld runWorld acc seed).2.length
      = acc.1.length + acc.2.length + 1 := by
  cases hr : runWorld seed <;> simp [collectWorld, hr] <;> omega

theorem foldl_collect_counts
    (runWorld : Int → Except (String × String) SimulationResult) :
    ∀ (seeds : List Int) (acc : List SimulationResult × List WorldError),
      (seeds.foldl (collectWorld runWorld) acc).1.length
          + (seeds.foldl (collectWorld runWorld) acc).2.length
        = acc.1.length + acc.2.length + seeds.length := by
  intro seeds
  induction seeds with
  | nil => intro acc; simp
  | cons s rest ih =>
      intro acc
      rw [List.foldl_cons]
      have hstep := collectWorld_counts runWorld acc s
      have := ih (collectWorld runWorld acc s)
      simp only [List.length_cons]
      omega

theorem mkSwarmResult_counts (results : List SimulationResult)
    (config : SwarmConfig) (t : ℚ) (failed : Nat) (errors : List WorldError) :
    (mkSwarmResult results config t results.length failed errors).successful_runs
      = results.length := by
  simp [mkSwarmResult]

theorem mkSwarmResult_failed (results : List SimulationResult)
    (config : SwarmConfig) (t : ℚ) (s failed : Nat)
    (errors : List WorldError) :
    (mkSwarmResult results config t s failed errors).failed_runs = failed :=
  rfl

/-- C9: for every executor run over n_worlds seeded worlds, sequential or
parallel (the parallel completion order being any permutation of the
submitted seeds), every seed contributes exactly one result or one error
record, so successful_runs + failed_runs equals n_worlds. -/
theorem swarm_completeness (config : SwarmConfig)
    (runWorld : Int → Except (String × String) SimulationResult) :
    (runSequential config runWorld).successful_runs
        + (runSequential config runWorld).failed_runs = config.n_worlds
    ∧ ∀ completionOrder : List Int,
        completionOrder.Perm (swarmSeeds config) →
        (runParallel config runWorld completionOrder).successful_runs
          + (runParallel config runWorld completionOrder).failed_runs
          = config.n_worlds := by
  constructor
  · have hcount := foldl_collect_counts runWorld (swarmSeeds config) ([], [])
    have hlen : (swarmSeeds config).length = config.n_worlds := by
      unfold swarmSeeds
      rw [List.length_map, List.length_range]
    simp only [runSequential]
    rw [mkSwarmResult_counts, mkSwarmResult_failed]
    simp only [List.length_nil] at hcount
    omega
  · intro order hperm
    have hcount := foldl_collect_counts runWorld order ([], [])
    have hlen : order.length = config.n_worlds := by
      rw [hperm.length_eq]
      unfold swarmSeeds
      rw [List.length_map, List.length_range]
    simp only [runParallel]
    rw [mkSwarmResult_counts, mkSwarmResult_failed]
    simp only [List.length_nil] at hcount
    omega

/-- Witness for swarm completeness: two worlds, one of which raises, in a
reversed completion order. -/
theorem swarm_completeness_witness :
    [(43 : Int), 42].Perm (swarmSeeds wConfig)
    ∧ (runParallel wConfig wRunWorld [43, 42]).successful_runs
        + (runParallel wConfig wRunWorld [43, 42]).failed_runs
      = wConfig.n_worlds :=
  ⟨by decide,
   (swarm_completeness wConfig wRunWorld).2 [43, 42] (by decide)⟩

theorem length_filter_disjoint {α : Type} (l : List α) (p q : α → Bool)
    (h : ∀ x ∈ l, ¬(p x = true ∧ q x = true)) :
    (l.filter p).length + (l.filter q).length ≤ l.length := by
  induction l with
  | nil => simp
  | cons a rest ih =>
      have hrest := ih (fun x hx => h x (List.mem_cons_of_mem a hx))
      have ha := h a (List.mem_cons_self a rest)
      by_cases hpa : p a = true
      · have hqa : q a = false := by
          cases hq : q a
          · rfl
          · exact absurd ⟨hpa, hq⟩ ha
        simp only [List.filter_cons, hpa, hqa, if_true, if_false,
          List.length_cons, Bool.false_eq_true]
        omega
      · have hpa' : p a = false := by
          cases hp : p a
          · rfl
          · exact absurd hp hpa
        by_cases hqa : q a = true
        · simp only [List.filter_cons, hpa', hqa, if_true, if_false,
            List.length_cons, Bool.false_eq_true]
          omega
        · have hqa' : q a = false := by
            cases hq : q a
            · rfl
            · exact absurd hq hqa
          simp only [List.filter_cons, hpa', hqa', List.length_cons,
            Bool.false_eq_true, if_false]
          omega

/-- C3 (amended): over any non-empty result population, unconditionally,
both the early and the late collapse rate lie in [0,1] and
collapse_probability equals collapse_count / total_runs exactly; and
provided the effective max steps is at least 2 — so the fixed 20%
threshold lies strictly below the 80% threshold — their sum is at most 1.
(With effective max steps 0 or 1 the two thresholds coincide and a
zero-step failure is counted in both rates:
collapse_rate_sum_counterexample.) -/
theorem collapse_rates_law (sqrtFn : ℚ → ℚ)
    (results : List SimulationResult) (max_steps : Option Nat)
    (horizons : Option (List Nat)) (hne : results ≠ []) :
    (0 ≤ (computeMetrics sqrtFn results max_steps horizons).early_collapse_rate
      ∧ (computeMetrics sqrtFn results max_steps horizons).early_collapse_rate ≤ 1)
    ∧ (0 ≤ (computeMetrics sqrtFn results max_steps horizons).late_collapse_rate
      ∧ (computeMetrics sqrtFn results max_steps horizons).late_collapse_rate ≤ 1)
    ∧ (2 ≤ collapseMaxSteps results max_steps →
        (computeMetrics sqrtFn results max_steps horizons).early_collapse_rate
          + (computeMetrics sqrtFn results max_steps horizons).late_collapse_rate ≤ 1)
    ∧ (computeMetrics sqrtFn results max_steps horizons).collapse_probability
        = ((computeMetrics sqrtFn results max_steps horizons).collapse_count : ℚ)
          / ((computeMetrics sqrtFn results max_steps horizons).total_runs : ℚ) := by
  have hne2 : results.isEmpty = false := by
    cases results with
    | nil => exact absurd rfl hne
    | cons a l => rfl
  have hnpos : 0 < results.length := by
    cases results with
    | nil => exact absurd rfl hne
    | cons a l => simp
  have hnposq : (0 : ℚ) < (results.length : ℚ) := by
    exact_mod_cast hnpos
  simp only [computeMetrics, hne2, Bool.false_eq_true, if_false]
  set failures := results.filter (fun r => r.is_failure) with hfail
  set m := collapseMaxSteps results max_steps with hm
  set ec := (failures.filter
    (fun r => r.total_steps ≤ m / 5)).length with hec
  set lc := (failures.filter
    (fun r => 4 * m / 5 ≤ r.total_steps)).length with hlc
  have hecle : ec ≤ results.length := by
    calc ec ≤ failures.length := List.length_filter_le _ _
    _ ≤ results.length := List.length_filter_le _ _
  have hlcle : lc ≤ results.length := by
    calc lc ≤ failures.length := List.length_filter_le _ _
    _ ≤ results.length := List.length_filter_le _ _
  refine ⟨⟨?_, ?_⟩, ⟨?_, ?_⟩, ?_, ?_⟩
  · positivity
  · rw [div_le_one hnposq]
    exact_mod_cast hecle
  · positivity
  · rw [div_le_one hnposq]
    exact_mod_cast hlcle
  · intro hms
    have hdisj : ec + lc ≤ failures.length := by
      rw [hec, hlc]
      refine length_filter_disjoint failures _ _ ?_
      intro r _ hcontra
      have h1 : r.total_steps ≤ m / 5 := by
        simpa using of_decide_eq_true hcontra.1
      have h2 : 4 * m / 5 ≤ r.total_steps := by
        simpa using of_decide_eq_true hcontra.2
      omega
    have hsumle : ec + lc ≤ results.length :=
      le_trans hdisj (List.length_filter_le _ _)
    rw [div_add_div_same, div_le_one hnposq]
    exact_mod_cast hsumle
  · first
    | rfl
    | trivial

/-- C3 counterexample: a single zero-step failure with default max_steps
resolution gives early and late collapse rates of 1 each, so their sum is
2, violating the claimed bound of 1 (while each rate is still in [0,1] and
collapse_probability still equals collapse_count / total_runs). -/
theorem collapse_rate_sum_counterexample :
    (computeMetrics zeroSqrt [zeroStepFailure] none none).early_collapse_rate = 1
    ∧ (computeMetrics zeroSqrt [zeroStepFailure] none none).late_collapse_rate = 1
    ∧ ¬((computeMetrics zeroSqrt [zeroStepFailure] none none).early_collapse_rate
        + (computeMetrics zeroSqrt [zeroStepFailure] none none).late_collapse_rate
        ≤ 1) := by
  have hearly : (computeMetrics zeroSqrt [zeroStepFailure] none
      none).early_collapse_rate = ((1 : Nat) : ℚ) / ((1 : Nat) : ℚ) := rfl
  have hlate : (computeMetrics zeroSqrt [zeroStepFailure] none
      none).late_collapse_rate = ((1 : Nat) : ℚ) / ((1 : Nat) : ℚ) := rfl
  rw [hearly, hlate]
  norm_num

/-- Witness for the amended collapse-rate theorem at a concrete
population and explicit max_steps. -/
theorem collapse_rates_law_witness :
    ([zeroStepFailure, oneStepSuccess] ≠ ([] : List SimulationResult)
      ∧ 2 ≤ collapseMaxSteps [zeroStepFailure, oneStepSuccess] (some 10))
    ∧ (computeMetrics zeroSqrt [zeroStepFailure, oneStepSuccess] (some 10)
        none).early_collapse_rate
      + (computeMetrics zeroSqrt [zeroStepFailure, oneStepSuccess] (some 10)
          none).late_collapse_rate ≤ 1 :=
  ⟨⟨List.cons_ne_nil _ _, by norm_num [collapseMaxSteps]⟩,
   (collapse_rates_law zeroSqrt [zeroStepFailure, oneStepSuccess] (some 10)
     none (List.cons_ne_nil _ _)).2.2.1 (by norm_num [collapseMaxSteps])⟩

/-- C5 (a code bug): the default application handler records only the
event name, timestep and severity — no irreversibility flag — while the
collapse analyzer tests each record's "is_irreversible" entry, so a run in
which an irreversible event fired under the default handler is never
counted in the irreversible-collapse rate. -/
theorem default_handler_drops_irreversibility :
    eventsList (applyEvent defaultGen preState irrevEvent)
      = [Val.vdict [("name", Val.vstr "meltdown"), ("timestep", Val.vint 3),
          ("severity", Val.vrat 1)]]
    ∧ irrevEvent.is_irreversible = true
    ∧ Val.getKey (Val.vdict [("name", Val.vstr "meltdown"),
        ("timestep", Val.vint 3), ("severity", Val.vrat 1)])
        "is_irreversible" = none
    ∧ hasIrreversibleEvent
        (eventsList (applyEvent defaultGen preState irrevEvent)) = false
    ∧ (computeMetrics zeroSqrt [failRunWithIrrev] none
        none).irreversible_collapse_rate = 0 := by
  have hrate : (computeMetrics zeroSqrt [failRunWithIrrev] none
      none).irreversible_collapse_rate = ((0 : Nat) : ℚ) / ((1 : Nat) : ℚ) :=
    rfl
  refine ⟨rfl, rfl, rfl, rfl, ?_⟩
  rw [hrate]
  norm_num

/-- C4 (amended): for every non-empty result population, the brittleness
score equals 0.3 min(1, noise_sensitivity) + 0.3 failure_rate
+ 0.2 (max_score - min_score) + 0.2 tail_risk clamped to [0,1], where
tail_risk is the plain fraction of scores at or below the 10th percentile
(the code applies no additional below-0.5 condition:
brittleness_tail_risk_counterexample). -/
theorem brittleness_formula_amended (sqrtFn : ℚ → ℚ)
    (results : List SimulationResult) (hne : results ≠ []) :
    compute_brittleness_score sqrtFn results
      = brittlenessPerAmendedClaim sqrtFn results := by
  have hne2 : results.isEmpty = false := by
    cases results with
    | nil => exact absurd rfl hne
    | cons a l => rfl
  have hs2 : (results.map (fun r => r.outcome_score)).isEmpty = false := by
    cases results with
    | nil => exact absurd rfl hne
    | cons a l => rfl
  unfold compute_brittleness_score brittlenessPerAmendedClaim
  rw [hne2]
  simp only [Bool.false_eq_true, if_false, hs2,
    List.countP_eq_length_filter, List.length_map]

/-- C4 counterexample: two runs both scoring 1.  The code's brittleness is
0.2 (every score ties the 10th percentile, so the code's tail_risk is 1),
while the claimed formula with the below-0.5 condition yields 0; the
square-root stand-in agrees with np.sqrt at the only argument reached
(the variance 0 of the constant scores). -/
theorem brittleness_tail_risk_counterexample :
    compute_brittleness_score zeroSqrt [scoreOneA, scoreOneB] = 1/5
    ∧ brittlenessPerClaim zeroSqrt [scoreOneA, scoreOneB] = 0
    ∧ qvariance ([scoreOneA, scoreOneB].map (fun r => r.outcome_score)) = 0
    ∧ zeroSqrt 0 = 0 := by
  have hsf : decide ("success" = "failure") = false := rfl
  have hosf : decide ((some "success" : Option String) = some "failure")
      = false := rfl
  refine ⟨?_, ?_, ?_, rfl⟩
  · norm_num [compute_brittleness_score, compute_noise_sensitivity,
      brittlenessPerClaim, qsum, qmean, qvariance, qmax, qmin, percentile,
      sortQ, insertQ, zeroSqrt, scoreOneA, scoreOneB,
      SimulationResult.is_failure, List.filter, hsf, hosf]
  · norm_num [compute_brittleness_score, compute_noise_sensitivity,
      brittlenessPerClaim, qsum, qmean, qvariance, qmax, qmin, percentile,
      sortQ, insertQ, zeroSqrt, scoreOneA, scoreOneB,
      SimulationResult.is_failure, List.filter, List.countP, List.countP.go,
      hsf, hosf]
  · norm_num [qsum, qmean, qvariance, scoreOneA, scoreOneB]

/-- Witness for the amended brittleness formula at a concrete
population. -/
theorem brittleness_formula_amended_witness :
    ([scoreOneA, zeroStepFailure] ≠ ([] : List SimulationResult))
    ∧ compute_brittleness_score zeroSqrt [scoreOneA, zeroStepFailure]
      = brittlenessPerAmendedClaim zeroSqrt [scoreOneA, zeroStepFailure] :=
  ⟨List.cons_ne_nil _ _,
   brittleness_formula_amended zeroSqrt [scoreOneA, zeroStepFailure]
     (List.cons_ne_nil _ _)⟩

theorem insertSortedDedup_ne_nil (x : Nat) (l : List Nat) :
    insertSortedDedup x l ≠ [] := by
  cases l with
  | nil => simp [insertSortedDedup]
  | cons y ys =>
      unfold insertSortedDedup
      by_cases h1 : x < y
      · simp [h1]
      · by_cases h2 : x = y <;> simp [h1, h2]

theorem filter_replicate_pos {α : Type} (n : Nat) (a : α) (p : α → Bool)
    (h : p a = true) :
    (List.replicate n a).filter p = List.replicate n a := by
  induction n with
  | zero => rfl
  | succ m ih => simp [List.replicate_succ, List.filter_cons, h, ih]

theorem getLast?_replicate_pos {α : Type} (n : Nat) (a : α) (h : 0 < n) :
    (List.replicate n a).getLast? = some a := by
  induction n with
  | zero => omega
  | succ m ih =>
      cases m with
      | zero => rfl
      | succ k =>
          rw [List.replicate_succ, List.replicate_succ,
            List.getLast?_cons_cons, ← List.replicate_succ]
          exact ih (by omega)

theorem kmSteps_probs_of_no_events (data : List (Nat × Bool))
    (h : ∀ t : Nat, (data.filter (fun d => d.1 = t && d.2)).length = 0) :
    ∀ (ts : List Nat) (s : ℚ),
      (kmSteps data ts s).map (fun x => x.2.1)
        = List.replicate ts.length s := by
  intro ts
  induction ts with
  | nil => intro s; rfl
  | cons t rest ih =>
      intro s
      simp only [kmSteps, h t, lt_self_iff_false, and_false, if_false,
        List.map_cons, List.length_cons, List.replicate_succ, ih s]

/-- C6: Kaplan-Meier boundary behaviour.  With a non-empty population in
which no run fails, the last survival probability is 1; with all runs
failing at the same time T, the last survival probability is 0 and the
median survival time is T (the first time cumulative survival drops to at
most one half). -/
theorem survival_curve_boundary (sqrtFn : ℚ → ℚ) (cl : ℚ) :
    (∀ results : List SimulationResult, results ≠ [] →
        (∀ r ∈ results, r.outcome = some "success") →
        (computeSurvivalCurve sqrtFn results cl).survival_prob.getLast?
          = some 1)
    ∧ (∀ (results : List SimulationResult) (T : Nat), results ≠ [] →
        (∀ r ∈ results, r.outcome = some "failure" ∧ r.total_steps = T) →
        (computeSurvivalCurve sqrtFn results cl).survival_prob.getLast?
          = some 0
        ∧ (computeSurvivalCurve sqrtFn results cl).median_survival
          = some T) := by
  constructor
  · intro results hne hsucc
    have hne2 : results.isEmpty = false := by
      cases results with
      | nil => exact absurd rfl hne
      | cons a l => rfl
    have hnofail : ∀ t : Nat,
        ((results.map (fun r => (r.total_steps, r.is_failure))).filter
          (fun d => d.1 = t && d.2)).length = 0 := by
      intro t
      rw [List.length_eq_zero, List.filter_eq_nil_iff]
      intro d hd
      obtain ⟨r, hr, hrd⟩ := List.mem_map.mp hd
      have hfail : r.is_failure = false := by
        simp [SimulationResult.is_failure, hsucc r hr]
      subst hrd
      simp [hfail]
    simp only [computeSurvivalCurve, hne2, Bool.false_eq_true, if_false]
    rw [kmSteps_probs_of_no_events _ hnofail _ 1]
    apply getLast?_replicate_pos
    have hnonnil : sortedUnique
        ((results.map (fun r => (r.total_steps, r.is_failure))).map
          (fun d => d.1)) ≠ [] := by
      cases results with
      | nil => exact absurd rfl hne
      | cons a l =>
          simp only [List.map_cons, sortedUnique]
          exact insertSortedDedup_ne_nil _ _
    exact List.length_pos.mpr hnonnil
  · intro results T hne hfail
    have hne2 : results.isEmpty = false := by
      cases results with
      | nil => exact absurd rfl hne
      | cons a l => rfl
    have hnpos : 0 < results.length := List.length_pos.mpr hne
    have hdata : results.map (fun r => (r.total_steps, r.is_failure))
        = List.replicate results.length (T, true) := by
      have hlen : (results.map (fun r => (r.total_steps, r.is_failure))).length
          = results.length := List.length_map _ _
      rw [← hlen]
      apply List.eq_replicate_length.mpr
      intro b hb
      obtain ⟨r, hr, hrb⟩ := List.mem_map.mp hb
      have h1 := (hfail r hr).1
      have h2 := (hfail r hr).2
      subst hrb
      simp [SimulationResult.is_failure, h1, h2]
    have hut : sortedUnique
        ((results.map (fun r => (r.total_steps, r.is_failure))).map
          (fun d => d.1)) = [T] := by
      rw [hdata, List.map_replicate]
      obtain ⟨m, hm⟩ : ∃ m, results.length = m + 1 := by
        cases hlen : results.length with
        | zero => omega
        | succ k => exact ⟨k, rfl⟩
      rw [hm]
      clear hm
      induction m with
      | zero => rfl
      | succ k ihk =>
          rw [List.replicate_succ, sortedUnique, ihk]
          simp [insertSortedDedup]
    have hn_at_risk : ((results.map (fun r => (r.total_steps, r.is_failure))).filter
        (fun d => T ≤ d.1)).length = results.length := by
      rw [hdata, filter_replicate_pos _ _ _ (by simp), List.length_replicate]
    have hn_events : ((results.map (fun r => (r.total_steps, r.is_failure))).filter
        (fun d => d.1 = T && d.2)).length = results.length := by
      rw [hdata, filter_replicate_pos _ _ _ (by simp), List.length_replicate]
    have hzero : (1 : ℚ) * (((results.length : ℚ) - (results.length : ℚ))
        / (results.length : ℚ)) = 0 := by
      simp
    constructor
    · simp only [computeSurvivalCurve, hne2, Bool.false_eq_true, if_false,
        hut, kmSteps, hn_at_risk, hn_events, hnpos, and_self, if_pos,
        List.map_cons, List.map_nil, hzero]
      rfl
    · simp only [computeSurvivalCurve, hne2, Bool.false_eq_true, if_false,
        hut, kmSteps, hn_at_risk, hn_events, hnpos, and_self, if_pos,
        List.map_cons, List.map_nil, hzero, SurvivalCurve.median_survival,
        medianAux]
      norm_num

/-- Witness for the survival boundary theorem: two all-success runs and
two runs failing at time 5. -/
theorem survival_curve_boundary_witness :
    ((∀ r ∈ [scoreOneA, scoreOneB], r.outcome = some "success")
      ∧ (∀ r ∈ [failAtFiveA, failAtFiveB],
          r.outcome = some "failure" ∧ r.total_steps = 5))
    ∧ (computeSurvivalCurve zeroSqrt [scoreOneA, scoreOneB]
        (95/100)).survival_prob.getLast? = some 1
    ∧ (computeSurvivalCurve zeroSqrt [failAtFiveA, failAtFiveB]
        (95/100)).median_survival = some 5 := by
  have hs : ∀ r ∈ [scoreOneA, scoreOneB], r.outcome = some "success" := by
    intro r hr
    rcases List.mem_cons.mp hr with h | h
    · subst h; rfl
    · rcases List.mem_cons.mp h with h2 | h2
      · subst h2; rfl
      · exact absurd h2 (List.not_mem_nil r)
  have hf : ∀ r ∈ [failAtFiveA, failAtFiveB],
      r.outcome = some "failure" ∧ r.total_steps = 5 := by
    intro r hr
    rcases List.mem_cons.mp hr with h | h
    · subst h; exact ⟨rfl, rfl⟩
    · rcases List.mem_cons.mp h with h2 | h2
      · subst h2; exact ⟨rfl, rfl⟩
      · exact absurd h2 (List.not_mem_nil r)
  refine ⟨⟨hs, hf⟩, ?_, ?_⟩
  · exact (survival_curve_boundary zeroSqrt (95/100)).1
      [scoreOneA, scoreOneB] (List.cons_ne_nil _ _) hs
  · exact ((survival_curve_boundary zeroSqrt (95/100)).2
      [failAtFiveA, failAtFiveB] 5 (List.cons_ne_nil _ _) hf).2

/-- Witness for the event sampling law: a certain and an impossible event
under a constant 1/2 draw stream. -/
theorem sample_events_probability_law_witness :
    ((∀ j, 0 ≤ drawsHalf j) ∧ (∀ j, drawsHalf j < 1)
      ∧ (witGen.events.map Event.name).Nodup)
    ∧ evAlways ∈ (sampleEvents witGen wsInit drawsHalf 0).1
    ∧ evNever ∉ (sampleEvents witGen wsInit drawsHalf 0).1 := by
  have h1 : ∀ j, 0 ≤ drawsHalf j := fun j => by norm_num [drawsHalf]
  have h2 : ∀ j, drawsHalf j < 1 := fun j => by norm_num [drawsHalf]
  have h3 : (witGen.events.map Event.name).Nodup := by
    simp [witGen, evAlways, evNever]
  refine ⟨⟨h1, h2, h3⟩, ?_, ?_⟩
  · exact (sample_events_probability_law witGen wsInit drawsHalf 0
      h1 h2 h3).2.2 evAlways (List.mem_cons_self _ _) rfl rfl rfl
  · exact (sample_events_probability_law witGen wsInit drawsHalf 0
      h1 h2 h3).2.1 evNever rfl

/-- C10: every analyzer returns its well-defined zero/empty metrics object
on an empty result population — the survival curve with empty lists and
absent bounds, the collapse metrics all zero/absent, the regret
distribution with zero statistics and an empty percentile table, and the
three sensitivity scores zero — independent of the square-root function,
the optimal score, the horizons, and the grouper. -/
theorem analyzers_empty_population :
    (∀ (sqrtFn : ℚ → ℚ) (cl : ℚ),
        computeSurvivalCurve sqrtFn [] cl = ⟨[], [], [], [], none, none⟩)
    ∧ (∀ (sqrtFn : ℚ → ℚ) (ms : Option Nat) (hz : Option (List Nat)),
        computeMetrics sqrtFn [] ms hz = ⟨0, none, none, [], 0, 0, 0, 0, 0⟩)
    ∧ (∀ (sqrtFn : ℚ → ℚ) (opt : ℚ),
        compute_outcome_regret sqrtFn opt [] = ⟨[], 0, 0, 0, 0, 0, []⟩)
    ∧ (∀ sqrtFn : ℚ → ℚ, compute_noise_sensitivity sqrtFn [] = 0)
    ∧ (∀ grouper : WorldState → String,
        compute_initial_condition_sensitivity grouper [] = 0)
    ∧ (∀ sqrtFn : ℚ → ℚ, compute_brittleness_score sqrtFn [] = 0) :=
  ⟨fun _ _ => rfl, fun _ _ _ => rfl, fun _ _ => rfl, fun _ => rfl,
   fun _ => rfl, fun _ => rfl⟩

end DecisionRobustness
